import Mathlib

/-!
Verification of the chatroom server (poll-based path) against its
specification.  The definitions below are a shallow embedding of the C++
sources: `util.cpp` (codec and buffer streams), `defaultlogic.cpp` (the
per-connection session state machine `CsDtDefaultHandler`), and
`chatserver_poll.cpp` (the connection service `CsRtPollClientService` and
the reactor main loop).  Byte strings (`std::string`, `char` buffers) are
modelled as `List Nat` with each element a byte value; 32-bit machine
integers (`int`) are modelled as `Int` together with explicit reduction
modulo 2^32 where the object representation matters.  The build targets
x86-64 (see the Makefile), so the in-memory representation of `int` is
4 bytes little-endian.
-/

namespace Chatroom

/-- Byte string of an ASCII literal: `std::string` contents as byte values. -/
def ascii (s : String) : List Nat := s.toList.map Char.toNat

/-- Reading a `char*` as a C string: bytes up to the first NUL terminator.
This models `std::string(p)` applied to a byte buffer (the source relies on
a NUL byte terminating the buffer). -/
def cString (bs : List Nat) : List Nat := bs.takeWhile (fun b => b ≠ 0)

/-- Decimal digits of a natural number, as ASCII bytes (operator<< on int). -/
def natDigits (n : Nat) : List Nat := (Nat.toDigits 10 n).map Char.toNat

/-- `format(fmts)` from util.cpp: `"\033["`, the format tokens separated by
`';'` (`"0"` when the list is empty), then `'m'`. -/
def formatStr (fmts : List Nat) : List Nat :=
  [27, 91] ++
    (match fmts with
     | [] => [48]
     | f :: fs => natDigits f ++ (fs.map (fun g => [59] ++ natDigits g)).flatten) ++
  [109]

-- The static format-string constants of defaultlogic.cpp.  The enum values
-- are cfBright = 1, cfFgRed = 31, cfFgYellow = 33, cfFgMagenta = 35.
def fmtRed : List Nat := formatStr [] ++ formatStr [31]
def fmtBrightRed : List Nat := formatStr [] ++ formatStr [1, 31]
def fmtYellow : List Nat := formatStr [] ++ formatStr [33, 1]
def fmtMagenta : List Nat := formatStr [] ++ formatStr [1, 35]
def fmtPurple : List Nat := formatStr [] ++ formatStr [35]

/-! ### The 4-byte integer codec

`CsDtOutputStream::write(const int&)` copies the native 4-byte object
representation of the int; `CsDtInputStream::read(int&)` copies 4 bytes
back (the `htonl`/`ntohl` conversions are commented out in the source).
On the x86-64 target this is little-endian two's complement. -/

/-- The 4-byte little-endian object representation of a C `int`. -/
def encodeInt (n : Int) : List Nat :=
  let u := (n % (2 ^ 32)).toNat
  [u % 256, u / 256 % 256, u / 256 ^ 2 % 256, u / 256 ^ 3 % 256]

/-- Recombine little-endian bytes into an unsigned value. -/
def decodeBytesLE (bs : List Nat) : Nat :=
  bs.foldr (fun b acc => b + 256 * acc) 0

/-- Reinterpret an unsigned 32-bit value as a signed C `int`. -/
def toSigned32 (u : Nat) : Int :=
  if u < 2 ^ 31 then (u : Int) else (u : Int) - 2 ^ 32

/-- Conversion of a C `int` to `size_t` (64-bit unsigned). -/
def intToSizeT (i : Int) : Nat := (i % (2 ^ 64)).toNat

/-- `std::vector<char>::resize`: keep a prefix, zero-fill any extension. -/
def vecResize (l : List Nat) (n : Nat) : List Nat :=
  l.take n ++ List.replicate (n - l.length) 0

/-! ### CsDtReadBuffer / CsDtWriteBuffer (util.cpp) -/

/-- `CsDtReadBuffer`: a byte region consumed from the front. -/
structure ReadBuffer where
  bytes : List Nat
deriving DecidableEq

/-- `CsDtReadBuffer::read0`: fail if fewer than `n` bytes remain, otherwise
hand out the first `n` bytes and advance. -/
def ReadBuffer.read0 (rb : ReadBuffer) (n : Nat) :
    Option (List Nat × ReadBuffer) :=
  if n ≤ rb.bytes.length then some (rb.bytes.take n, ⟨rb.bytes.drop n⟩)
  else none

/-- `CsDtInputStream::read(int&)`: read the 4-byte object representation. -/
def ReadBuffer.readInt (rb : ReadBuffer) : Option (Int × ReadBuffer) :=
  match rb.read0 4 with
  | none => none
  | some (bs, rb') => some (toSigned32 (decodeBytesLE bs), rb')

/-- `CsDtInputStream::read(std::string&, maxLength)`: read a 4-byte length,
reject negative lengths (EIO) and lengths above a positive `maxLength`,
then read that many bytes into a buffer of `length + 1` chars, set the
final char to NUL and build the result with `std::string(buffer.data())`
(which stops at the first NUL byte). -/
def ReadBuffer.readString (rb : ReadBuffer) (maxLength : Nat) :
    Option (List Nat × ReadBuffer) :=
  match rb.readInt with
  | none => none
  | some (len, rb') =>
    if len < 0 then none
    else if 0 < maxLength ∧ (maxLength : Int) < len then none
    else
      match rb'.read0 (Int.toNat len) with
      | none => none
      | some (bs, rb'') => some (cString bs, rb'')

/-- `CsDtWriteBuffer`: a growable byte buffer appended at the end. -/
structure WriteBuffer where
  bytes : List Nat
deriving DecidableEq

def WriteBuffer.nil : WriteBuffer := ⟨[]⟩

/-- `CsDtWriteBuffer::write0`: append raw bytes. -/
def WriteBuffer.write0 (wb : WriteBuffer) (bs : List Nat) : WriteBuffer :=
  ⟨wb.bytes ++ bs⟩

/-- `CsDtOutputStream::write(const int&)`: append the 4-byte representation. -/
def WriteBuffer.writeInt (wb : WriteBuffer) (n : Int) : WriteBuffer :=
  wb.write0 (encodeInt n)

/-- `CsDtOutputStream::write(const std::string&, maxLength)`: check the
length bound when `maxLength` is positive (EINVAL on failure), then write
the length as an int followed by the raw bytes. -/
def WriteBuffer.writeString (wb : WriteBuffer) (s : List Nat)
    (maxLength : Nat) : Int × WriteBuffer :=
  if 0 < maxLength ∧ maxLength < s.length then (-1, wb)
  else (0, (wb.writeInt (s.length : Int)).write0 s)

/-- `CsRtPollClientService::send`: build a `CsDtWriteBuffer`, write the
packet id `0`, then the length-prefixed message, and hand the bytes to
`nextSend`.  This is the full wire image of a server→client message. -/
def sendPacket (message : List Nat) : List Nat :=
  (((WriteBuffer.nil.writeInt 0).writeString message 0).2).bytes

/-! ### The taken-names set (`std::set<std::string>`)

`std::set` is an ordered container holding each key at most once; keys are
compared with `std::string::operator<`, byte-wise lexicographic order.  We
model it as a list kept in sorted order without duplicates. -/

/-- Byte-wise lexicographic `<` on byte strings (`std::string::operator<`). -/
def lexLt : List Nat → List Nat → Bool
  | [], [] => false
  | [], _ :: _ => true
  | _ :: _, [] => false
  | a :: as, b :: bs => if a < b then true else if b < a then false else lexLt as bs

/-- `std::set::insert`: place the key at its sorted position, or do nothing
when an equivalent key is already present. -/
def insertName (s : List Nat) : List (List Nat) → List (List Nat)
  | [] => [s]
  | t :: ts =>
    if lexLt s t then s :: t :: ts
    else if lexLt t s then t :: insertName s ts
    else t :: ts

/-- `std::set::erase(key)`: remove the (unique) element equal to the key. -/
def eraseName (s : List Nat) : List (List Nat) → List (List Nat)
  | [] => []
  | t :: ts => if t = s then ts else t :: eraseName s ts

/-! ### The client service (`CsRtPollClientService`), name-related part -/

/-- The slice of `CsRtPollClientService` visible to the session logic:
the shared taken-names set and this connection's registered name
(`clientName`, empty until a handshake succeeds). -/
structure Service where
  names : List (List Nat)
  clientName : List Nat
deriving DecidableEq

/-- `CsRtPollClientService::userOnline`: refuse when the name is already in
the set; otherwise insert it and record it as this connection's name. -/
def userOnline (sv : Service) (s : List Nat) : Bool × Service :=
  if s ∈ sv.names then (false, sv)
  else (true, ⟨insertName s sv.names, s⟩)

/-- The outbound effects a session step produces through the service:
`send` messages to the own client, `log` lines, and `broadcast` calls
(message together with the muted-user set). -/
structure Effects where
  sent : List (List Nat)
  logs : List (List Nat)
  broadcasts : List (List Nat × List (List Nat))
deriving DecidableEq

def Effects.nil : Effects := ⟨[], [], []⟩

/-! ### Message texts built by defaultlogic.cpp -/

/-- The duplicate-name rejection message. -/
def rejectMessage (name : List Nat) : List Nat :=
  fmtRed ++ ascii "Sorry but " ++ fmtMagenta ++ name ++ fmtRed ++
    ascii " is already online, why not choose another name?"

/-- The welcome message sent to a client that joined. -/
def welcomeMessage (name : List Nat) : List Nat :=
  fmtYellow ++ ascii "Welcome to the chat room, " ++ fmtMagenta ++ name ++
    fmtYellow ++ ascii "."

/-- The join announcement broadcast to the other clients. -/
def joinMessage (name ip : List Nat) : List Nat :=
  fmtYellow ++ ascii "New user " ++ fmtMagenta ++ name ++ fmtPurple ++
    ascii " (" ++ ip ++ ascii ")" ++ formatStr [] ++ fmtYellow ++
    ascii " has joined the chat room."

/-- The chat line broadcast for a chat packet. -/
def chatMessage (name chat : List Nat) : List Nat :=
  ascii "[" ++ fmtMagenta ++ name ++ formatStr [] ++ ascii "] " ++ chat

/-- The user listing for the `online` command: `std::set` iterates in
sorted order, the first name has no separator. -/
def onlineMessage (users : List (List Nat)) : List Nat :=
  fmtYellow ++ ascii "There " ++
    (if users.length > 1 then ascii "are" else ascii "is") ++ ascii " " ++
    natDigits users.length ++ ascii " user" ++
    (if users.length > 1 then ascii "s" else []) ++ ascii " online: " ++
    (match users with
     | [] => []
     | u :: us =>
       fmtMagenta ++ u ++
         (us.map (fun v => fmtYellow ++ ascii ", " ++ fmtMagenta ++ v)).flatten) ++
    fmtYellow ++ ascii "."

/-- The `help` listing: the `std::map` iterates its keys in sorted order,
so `help` comes before `online`; `std::endl` is the byte 10. -/
def helpMessage : List Nat :=
  fmtYellow ++ ascii "List of available commands: " ++
    [10] ++ fmtYellow ++ ascii "/help" ++ formatStr [] ++
      ascii ": show available commands." ++
    [10] ++ fmtYellow ++ ascii "/online" ++ formatStr [] ++
      ascii ": list online users in this chatroom."

/-- The unknown-command notice. -/
def unknownMessage (tok : List Nat) : List Nat :=
  fmtRed ++ ascii "Unknown command " ++ fmtBrightRed ++ ascii "/" ++ tok ++
    fmtRed ++ ascii ". Issue " ++ fmtBrightRed ++ ascii "/help" ++ fmtRed ++
    ascii " for the list of commands."

/-! ### Command splitting and dispatch (`processPacket`, `processCommand`) -/

/-- `std::string::find(" ")`: index of the first space byte, if any. -/
def findSpace : List Nat → Option Nat
  | [] => none
  | b :: bs => if b = 32 then some 0 else (findSpace bs).map (· + 1)

/-- The command-splitting `while` loop of `processPacket` case 1, with a
fuel bound: each loop iteration consumes one unit of fuel, and `none`
means the fuel ran out (the loop had not terminated by then).  A space
found at position 0 leaves both `arguments` and `command` unchanged. -/
def splitLoop (fuel : Nat) (args : List (List Nat)) (command : List Nat) :
    Option (List (List Nat) × List Nat) :=
  match fuel with
  | 0 => none
  | fuel + 1 =>
    match findSpace command with
    | none => some (args, command)
    | some pos =>
      if pos > 0 then
        splitLoop fuel (args ++ [command.take pos]) (command.drop (pos + 1))
      else
        splitLoop fuel args command

/-- The full splitting step: run the loop, then push the remaining command
text when it is non-empty. -/
def splitCommand (fuel : Nat) (command : List Nat) :
    Option (List (List Nat)) :=
  (splitLoop fuel [] command).map
    (fun r => if r.2.length > 0 then r.1 ++ [r.2] else r.1)

/-- `CsDtDefaultHandler::processCommand` (the caller guarantees `args`
non-empty).  `listOnlineUsers` returns a copy of the taken-names set. -/
def processCommand (sv : Service) (args : List (List Nat)) : Effects :=
  let a0 := args.headD []
  if a0 = ascii "online" then ⟨[onlineMessage sv.names], [], []⟩
  else if a0 = ascii "help" then ⟨[helpMessage], [], []⟩
  else ⟨[unknownMessage a0], [], []⟩

/-- `CsDtDefaultHandler::processPacket`: wrap the packet bytes in a
`CsDtReadBuffer`, read the packet id, then dispatch: id 0 broadcasts the
chat line (no muted users), id 1 splits the command text and runs
`processCommand` when at least one token resulted, any other id is a
protocol violation (`-1`).  The split loop can fail to terminate, hence
the fuel and the `Option`. -/
def processPacket (fuel : Nat) (sv : Service) (clientName : List Nat)
    (packet : List Nat) : Option (Int × Effects) :=
  let rb : ReadBuffer := ⟨packet⟩
  match rb.readInt with
  | none => some (-1, Effects.nil)
  | some (packetId, rb1) =>
    if packetId = 0 then
      match rb1.readString 0 with
      | none => some (-1, Effects.nil)
      | some (chat, _) =>
        some (0, ⟨[], [], [(chatMessage clientName chat, [])]⟩)
    else if packetId = 1 then
      match rb1.readString 0 with
      | none => some (-1, Effects.nil)
      | some (command, _) =>
        match splitCommand fuel command with
        | none => none
        | some args =>
          some (0, if args.length > 0 then processCommand sv args else Effects.nil)
    else some (-1, Effects.nil)

/-! ### The session state machine (`CsDtDefaultHandler`) -/

/-- The `CsDtClientStatus` enum; the source values are
stTerminated = 0, stNameSize = 1, stNameBuffer = 2, stPacketSize = 3,
stPacketData = 4. -/
inductive CsDtClientStatus where
  | stTerminated
  | stNameSize
  | stNameBuffer
  | stPacketSize
  | stPacketData
deriving DecidableEq

open CsDtClientStatus

/-- The mutable fields of `CsDtDefaultHandler`.  `dataSize` is a C `int`;
`clientName` is the handler's own copy of the name.  The constructor sets
`status = stNameSize` and `hasJoinedServer = false`; `dataSize` is
uninitialised in the source and never read before being filled, we pick 0. -/
structure Handler where
  status : CsDtClientStatus
  dataSize : Int
  dataBuffer : List Nat
  hasJoinedServer : Bool
  clientName : List Nat
deriving DecidableEq

def initHandler : Handler := ⟨stNameSize, 0, [], false, []⟩

/-- `CsDtDefaultHandler::next`: the size of the next read window.  In the
size states it is `sizeof(int) = 4`; in the data states it is `dataSize`
converted to `size_t`; in any other state it is 0 (termination). -/
def Handler.next (h : Handler) : Nat :=
  match h.status with
  | stPacketSize => 4
  | stNameSize => 4
  | stPacketData => intToSizeT h.dataSize
  | stNameBuffer => intToSizeT h.dataSize
  | stTerminated => 0

/-- Filling the window the handler exposed: in the size states the window
is the object representation of `dataSize` (4 bytes little-endian); in the
data states it is `dataBuffer`'s storage. -/
def Handler.fill (h : Handler) (bs : List Nat) : Handler :=
  match h.status with
  | stPacketSize => { h with dataSize := toSigned32 (decodeBytesLE bs) }
  | stNameSize => { h with dataSize := toSigned32 (decodeBytesLE bs) }
  | stPacketData => { h with dataBuffer := bs }
  | stNameBuffer => { h with dataBuffer := bs }
  | stTerminated => h

/-- `CsDtDefaultHandler::bufferFilled`, together with the service calls it
performs.  Arguments: the handler, the service slice (names set and
registered name) and the peer address string used in the join message.
Returns the new handler, the new service slice, and the emitted effects;
`none` when the command-splitting loop inside `processPacket` did not
terminate within `fuel` iterations.

In the `stPacketData` branch the call is
`processPacket((size_t)dataSize, dataBuffer.data())`; at every call site
`dataBuffer` was resized to exactly `dataSize` elements in the preceding
`stPacketSize` step, so the window handed over is `dataBuffer` itself.

In the `stNameBuffer` branch `clientName = std::string(dataBuffer.data())`
truncates the buffer at its first NUL byte. -/
def bufferFilled (fuel : Nat) (h : Handler) (sv : Service) (ip : List Nat) :
    Option (Handler × Service × Effects) :=
  match h.status with
  | stNameSize =>
    if h.dataSize ≥ 64 then
      some ({ h with status := stTerminated }, sv, Effects.nil)
    else
      some ({ h with status := stNameBuffer,
                     dataBuffer := vecResize h.dataBuffer (intToSizeT h.dataSize) },
            sv, Effects.nil)
  | stPacketSize =>
    some ({ h with status := stPacketData,
                   dataBuffer := vecResize h.dataBuffer (intToSizeT h.dataSize) },
          sv, Effects.nil)
  | stPacketData =>
    match processPacket fuel sv h.clientName h.dataBuffer with
    | none => none
    | some (r, eff) =>
      if r < 0 then
        some ({ h with status := stTerminated, dataBuffer := [] }, sv, eff)
      else
        some ({ h with status := stPacketSize, dataBuffer := [] }, sv, eff)
  | stNameBuffer =>
    let name := cString h.dataBuffer
    let h0 := { h with clientName := name, dataBuffer := [] }
    match userOnline sv name with
    | (true, sv') =>
      some ({ h0 with hasJoinedServer := true, status := stPacketSize }, sv',
            ⟨[welcomeMessage name], [joinMessage name ip],
             [(joinMessage name ip, [name])]⟩)
    | (false, _) =>
      some ({ h0 with status := stTerminated }, sv,
            ⟨[rejectMessage name], [], []⟩)
  | stTerminated =>
    some ({ h with status := stTerminated }, sv, Effects.nil)

/-! ### `CsRtPollClientService::receive`

The connection's read side is the handler plus `readPointer`, the offset
into the current window.  We carry the bytes already delivered into the
window as `pending` (so `readPointer = pending.length`); the source writes
them into the window buffer at increasing offsets, and only reads the
buffer back once the window is completely filled. -/

/-- The read-side state of a connection. -/
structure RecvConn where
  handler : Handler
  pending : List Nat
deriving DecidableEq

/-- Outcome of the one non-blocking `read` call in `receive`:
`wouldBlock` is `-1` with `errno == EWOULDBLOCK`, `errOther` is any other
negative return, and `bytes bs` is a return of `bs.length` bytes
(`bs = []` is the end-of-stream return 0). -/
inductive ReadOutcome where
  | wouldBlock
  | errOther
  | bytes (bs : List Nat)

/-- `CsRtPollClientService::receive`: ask the handler for the window, do
one read of up to `size - readPointer` bytes, then: would-block returns 0;
other errors and end-of-stream return -1; a full window notifies the
handler and resets the pointer, a partial read only advances the pointer;
finally the next window is queried and a zero size returns -1. -/
def receive (fuel : Nat) (c : RecvConn) (sv : Service) (ip : List Nat)
    (o : ReadOutcome) : Option (Int × RecvConn × Service × Effects) :=
  let size := c.handler.next
  match o with
  | .wouldBlock => some (0, c, sv, Effects.nil)
  | .errOther => some (-1, c, sv, Effects.nil)
  | .bytes bs =>
    if bs.length = 0 then some (-1, c, sv, Effects.nil)
    else if c.pending.length + bs.length = size then
      match bufferFilled fuel (c.handler.fill (c.pending ++ bs)) sv ip with
      | none => none
      | some (h', sv', eff) =>
        if h'.next = 0 then some (-1, ⟨h', []⟩, sv', eff)
        else some (0, ⟨h', []⟩, sv', eff)
    else
      let c' : RecvConn := ⟨c.handler, c.pending ++ bs⟩
      if c'.handler.next = 0 then some (-1, c', sv, Effects.nil)
      else some (0, c', sv, Effects.nil)

/-! ### The outbound queue (`nextSend` / `transfer`)

`outputBuffers` holds the cloned chunks, `outputSizes` the recorded chunk
sizes, `writePointer` the offset into the head chunk, and the POLLOUT bit
of the connection's poll entry is `pollout`.  `write` outcomes are modelled
like read outcomes; a successful write returns at most the requested
count, which we enforce by clamping (POSIX guarantees it). -/

inductive WriteOutcome where
  | wouldBlock
  | errOther
  | ok (k : Nat)

/-- How the opportunistic send loop of `nextSend` exited: all bytes sent,
`break` on a non-retryable write error, or the bare `return` taken when
`write` returns 0. -/
inductive SendExit where
  | complete
  | errBreak
  | zeroReturn
deriving DecidableEq

/-- The `while(dataSent < size)` loop of `nextSend`.  `w` maps the index
of a `write` call to its outcome and `i` counts the calls made so far.
On `EWOULDBLOCK` the source executes `continue`, re-entering the loop with
nothing changed except one more `write` call.  Returns the exit kind, the
final `dataSent`, and the next call index; `none` when the fuel ran out
before the loop exited. -/
def nextSendLoop (w : Nat → WriteOutcome) :
    Nat → Nat → Nat → Nat → Option (SendExit × Nat × Nat)
  | 0, _, _, _ => none
  | fuel + 1, i, dataSent, size =>
    if dataSent < size then
      match w i with
      | .wouldBlock => nextSendLoop w fuel (i + 1) dataSent size
      | .errOther => some (.errBreak, dataSent, i + 1)
      | .ok 0 => some (.zeroReturn, dataSent, i + 1)
      | .ok (k + 1) =>
        nextSendLoop w fuel (i + 1) (dataSent + min (k + 1) (size - dataSent)) size
    else some (.complete, dataSent, i)

/-- The outbound-queue state of one connection. -/
structure OutQueue where
  bufs : List (List Nat)
  sizes : List Nat
  wp : Nat
  pollout : Bool
deriving DecidableEq

/-- `CsRtPollClientService::nextSend`: with a non-empty queue the payload
is cloned and appended.  With an empty queue the send loop runs first; on
the `write = 0` exit the function returns with nothing queued; otherwise,
if bytes remain, the residual `size - dataSent` bytes are cloned into a
chunk, the full `size` is pushed onto `outputSizes`, `writePointer` is set
to `dataSent` and POLLOUT is enabled.  `none` when the send loop did not
exit within `fuel` iterations. -/
def nextSend (w : Nat → WriteOutcome) (fuel : Nat) (q : OutQueue)
    (payload : List Nat) : Option OutQueue :=
  if q.bufs.length > 0 then
    some { q with bufs := q.bufs ++ [payload],
                  sizes := q.sizes ++ [payload.length] }
  else
    match nextSendLoop w fuel 0 0 payload.length with
    | none => none
    | some (.zeroReturn, _, _) => some q
    | some (_, dataSent, _) =>
      if dataSent < payload.length then
        some { q with bufs := [payload.drop dataSent],
                      sizes := [payload.length],
                      wp := dataSent,
                      pollout := true }
      else some q

/-- `CsRtPollClientService::transfer`, with the two nested `while` loops
merged into one fueled recursion: while the queue is non-empty, if
`writePointer` is below the head's recorded size, one `write` of the
remaining `size - writePointer` bytes is attempted — a non-retryable error
or a 0 return aborts with -1 (`some none`), `EWOULDBLOCK` breaks out
leaving the queue as is, and a sent count advances `writePointer`; once
`writePointer` reaches the recorded size the head chunk is freed and
popped and `writePointer` resets.  When the queue empties, the POLLOUT
flag is cleared.  The ghost list `pops` records, for each popped chunk,
the `writePointer` at the pop and the recorded size. -/
def transfer (w : Nat → WriteOutcome) :
    Nat → Nat → OutQueue → List (Nat × Nat) →
    Option (Option (OutQueue × List (Nat × Nat)))
  | 0, _, _, _ => none
  | fuel + 1, i, q, pops =>
    match q.bufs, q.sizes with
    | [], _ => some (some ({ q with pollout := false }, pops))
    | _, [] => some (some ({ q with pollout := false }, pops))
    | _ :: bs, sz :: szs =>
      if q.wp < sz then
        match w i with
        | .errOther => some none
        | .ok 0 => some none
        | .wouldBlock => some (some (q, pops))
        | .ok (k + 1) =>
          transfer w fuel (i + 1) { q with wp := q.wp + min (k + 1) (sz - q.wp) } pops
      else
        transfer w fuel i
          { bufs := bs, sizes := szs, wp := 0, pollout := q.pollout }
          (pops ++ [(q.wp, sz)])

/-- The initial outbound queue of a fresh connection. -/
def initQueue : OutQueue := ⟨[], [], 0, false⟩

/-- One reactor-visible operation on a connection's outbound queue:
an `enqueue` via `nextSend`, a completed `transfer` (drain), or a failed
`transfer` after which the main loop clears the POLLOUT bit. -/
inductive QStep : OutQueue → OutQueue → Prop
  | send (w : Nat → WriteOutcome) (fuel : Nat) (payload : List Nat)
      {q q' : OutQueue} (h : nextSend w fuel q payload = some q') : QStep q q'
  | xfer (w : Nat → WriteOutcome) (fuel : Nat) {q q' : OutQueue}
      (pops : List (Nat × Nat))
      (h : transfer w fuel 0 q [] = some (some (q', pops))) : QStep q q'
  | xferErr (w : Nat → WriteOutcome) (fuel : Nat) {q : OutQueue}
      (h : transfer w fuel 0 q [] = some none) :
      QStep q { q with pollout := false }

/-- The queue states reachable over a connection's lifetime. -/
inductive QReachable : OutQueue → Prop
  | init : QReachable initQueue
  | step {q q' : OutQueue} : QReachable q → QStep q q' → QReachable q'

/-! ### The reactor (main loop of chatserver_poll.cpp), name-registry slice

For the taken-names invariant we model the reactor state as the registry
of connections (a partial map from the socket descriptor) together with
the shared `clientNameSet`.  Each connection carries its handler, its
service-side `clientName` and its peer address string.  The steps are the
loop-boundary-visible operations: accepting a fresh connection, a read
that completes the handler's current window (driving `bufferFilled`
through `receive`), and the teardown sweep of one killed connection,
which erases a non-empty registered name from the set.  A connection can
be killed at any time (peer close or read error), so the sweep step
applies to any live connection.

After `bufferFilled`, `receive` re-queries the handler's window and
returns -1 when its size is zero; the main loop then inserts the fd into
`killedService` and the teardown sweep runs in the same iteration, before
the next `poll` call.  A delivery that leaves the handler with a zero
next window therefore never produces a loop-boundary state with that
connection still present: the `deliver` step requires a non-zero next
window, and the `deliverKill` step combines such a delivery with the
mandatory same-iteration teardown of that connection. -/

/-- A live connection, as the reactor sees it. -/
structure RConn where
  handler : Handler
  svcName : List Nat
  ip : List Nat

/-- The reactor state: registry plus the shared taken-names set. -/
structure Reactor where
  conns : Nat → Option RConn
  names : List (List Nat)

/-- The state before any connection arrived. -/
def initReactor : Reactor := ⟨fun _ => none, []⟩

/-- Registry update at one descriptor. -/
def updConn (m : Nat → Option RConn) (fd : Nat) (c : Option RConn) :
    Nat → Option RConn :=
  fun g => if g = fd then c else m g

/-- One loop-boundary transition of the reactor. -/
inductive RStep : Reactor → Reactor → Prop
  | accept (s : Reactor) (fd : Nat) (ip : List Nat)
      (hfree : s.conns fd = none) :
      RStep s ⟨updConn s.conns fd (some ⟨initHandler, [], ip⟩), s.names⟩
  | deliver (s : Reactor) (fd : Nat) (c : RConn) (bs : List Nat) (fuel : Nat)
      (h' : Handler) (sv' : Service) (eff : Effects)
      (hc : s.conns fd = some c)
      (hlen : bs.length = c.handler.next)
      (hnz : c.handler.next ≠ 0)
      (hbf : bufferFilled fuel (c.handler.fill bs) ⟨s.names, c.svcName⟩ c.ip
               = some (h', sv', eff))
      (hnext : h'.next ≠ 0) :
      RStep s ⟨updConn s.conns fd (some ⟨h', sv'.clientName, c.ip⟩), sv'.names⟩
  | deliverKill (s : Reactor) (fd : Nat) (c : RConn) (bs : List Nat) (fuel : Nat)
      (h' : Handler) (sv' : Service) (eff : Effects)
      (hc : s.conns fd = some c)
      (hlen : bs.length = c.handler.next)
      (hnz : c.handler.next ≠ 0)
      (hbf : bufferFilled fuel (c.handler.fill bs) ⟨s.names, c.svcName⟩ c.ip
               = some (h', sv', eff))
      (hnext : h'.next = 0) :
      RStep s ⟨updConn s.conns fd none,
               if sv'.clientName ≠ [] then eraseName sv'.clientName sv'.names
               else sv'.names⟩
  | sweep (s : Reactor) (fd : Nat) (c : RConn)
      (hc : s.conns fd = some c) :
      RStep s ⟨updConn s.conns fd none,
               if c.svcName ≠ [] then eraseName c.svcName s.names else s.names⟩

/-- The reactor states reachable at loop boundaries. -/
inductive RReach : Reactor → Prop
  | init : RReach initReactor
  | step {s s' : Reactor} : RReach s → RStep s s' → RReach s'

/-- A session state strictly past the name handshake: `stPacketSize`
(AwaitingPacketLength) or later in the claim's ordering, which also
includes `stTerminated` connections not yet swept. -/
def statusPastNameBytes (st : CsDtClientStatus) : Prop :=
  st ≠ stNameSize ∧ st ≠ stNameBuffer

instance (st : CsDtClientStatus) : Decidable (statusPastNameBytes st) :=
  inferInstanceAs (Decidable (And _ _))

/-- The taken-names equality exactly as the claim states it: the set
equals the display-name fields of live connections whose session state is
past AwaitingNameBytes (including not-yet-swept Terminated connections). -/
def namesMatchClaim (s : Reactor) : Prop :=
  ∀ n, n ∈ s.names ↔
    ∃ fd c, s.conns fd = some c ∧ statusPastNameBytes c.handler.status ∧
      c.svcName = n

/-! ## Lemmas -/

theorem lexLt_irrefl (l : List Nat) : lexLt l l = false := by
  induction l with
  | nil => rfl
  | cons a as ih => simp [lexLt, ih]

theorem lexLt_eq_of_not_lt {a b : List Nat}
    (h1 : lexLt a b = false) (h2 : lexLt b a = false) : a = b := by
  induction a generalizing b with
  | nil => cases b with
    | nil => rfl
    | cons y ys => simp [lexLt] at h1
  | cons x xs ih =>
    cases b with
    | nil => simp [lexLt] at h2
    | cons y ys =>
      simp only [lexLt] at h1 h2
      by_cases hxy : x < y
      · simp [hxy] at h1
      · by_cases hyx : y < x
        · simp [hxy, hyx] at h2
        · have : x = y := by omega
          subst this
          simp [hxy] at h1 h2
          rw [ih h1 h2]

theorem mem_insertName (m s : List Nat) (l : List (List Nat)) :
    m ∈ insertName s l ↔ m = s ∨ m ∈ l := by
  induction l with
  | nil => simp [insertName]
  | cons t ts ih =>
    simp only [insertName]
    split
    · simp only [List.mem_cons]
    · next h1 =>
      split
      · simp only [List.mem_cons, ih]
        tauto
      · next h2 =>
        have h1' : lexLt s t = false := by simpa using h1
        have h2' : lexLt t s = false := by simpa using h2
        have ht : s = t := lexLt_eq_of_not_lt h1' h2'
        subst ht
        simp only [List.mem_cons]
        tauto

theorem nodup_insertName {s : List Nat} {l : List (List Nat)}
    (h : l.Nodup) (hs : s ∉ l) : (insertName s l).Nodup := by
  induction l with
  | nil => simp [insertName]
  | cons t ts ih =>
    simp only [insertName]
    rcases List.nodup_cons.mp h with ⟨htts, hts⟩
    split
    · exact List.nodup_cons.mpr ⟨hs, h⟩
    · split
      · refine List.nodup_cons.mpr ⟨?_, ih hts (fun hm => hs (List.mem_cons_of_mem _ hm))⟩
        intro hmem
        rcases (mem_insertName t s ts).mp hmem with h' | h'
        · exact hs (h' ▸ List.mem_cons_self t ts)
        · exact htts h'
      · exact h

theorem mem_of_mem_eraseName {m s : List Nat} {l : List (List Nat)}
    (h : m ∈ eraseName s l) : m ∈ l := by
  induction l with
  | nil => simp [eraseName] at h
  | cons t ts ih =>
    simp only [eraseName] at h
    split at h
    · exact List.mem_cons_of_mem _ h
    · rcases List.mem_cons.mp h with h' | h'
      · exact h' ▸ List.mem_cons_self t ts
      · exact List.mem_cons_of_mem _ (ih h')

theorem mem_eraseName {m s : List Nat} {l : List (List Nat)} (hnd : l.Nodup) :
    m ∈ eraseName s l ↔ m ∈ l ∧ m ≠ s := by
  induction l with
  | nil => simp [eraseName]
  | cons t ts ih =>
    rcases List.nodup_cons.mp hnd with ⟨htts, hts⟩
    simp only [eraseName]
    split
    · next hteq =>
      subst hteq
      constructor
      · intro hm
        exact ⟨List.mem_cons_of_mem _ hm, fun he => htts (he ▸ hm)⟩
      · rintro ⟨hm, hne⟩
        rcases List.mem_cons.mp hm with h' | h'
        · exact absurd h' hne
        · exact h'
    · next hteq =>
      simp only [List.mem_cons, ih hts]
      constructor
      · rintro (h' | ⟨h', hne⟩)
        · exact ⟨Or.inl h', h' ▸ hteq⟩
        · exact ⟨Or.inr h', hne⟩
      · rintro ⟨h' | h', hne⟩
        · exact Or.inl h'
        · exact Or.inr ⟨h', hne⟩

theorem nodup_eraseName (s : List Nat) {l : List (List Nat)} (h : l.Nodup) :
    (eraseName s l).Nodup := by
  induction l with
  | nil => simp [eraseName]
  | cons t ts ih =>
    rcases List.nodup_cons.mp h with ⟨htts, hts⟩
    simp only [eraseName]
    split
    · exact hts
    · exact List.nodup_cons.mpr ⟨fun hm => htts (mem_of_mem_eraseName hm), ih hts⟩

/-! ### Codec lemmas -/

theorem decodeBytesLE_encodeInt (n : Int) :
    decodeBytesLE (encodeInt n) = (n % (2 ^ 32)).toNat := by
  have hlt : (n % (2 ^ 32)).toNat < 2 ^ 32 := by omega
  simp only [encodeInt, decodeBytesLE, List.foldr]
  omega

theorem toSigned32_mod (n : Int) (h1 : -(2 ^ 31) ≤ n) (h2 : n < 2 ^ 31) :
    toSigned32 ((n % (2 ^ 32)).toNat) = n := by
  unfold toSigned32
  split <;> omega

theorem encodeInt_length (n : Int) : (encodeInt n).length = 4 := by
  simp [encodeInt]

theorem readInt_of_encodeInt (n : Int) (rest : List Nat)
    (h1 : -(2 ^ 31) ≤ n) (h2 : n < 2 ^ 31) :
    (ReadBuffer.mk (encodeInt n ++ rest)).readInt = some (n, ⟨rest⟩) := by
  have hlen : (encodeInt n ++ rest).length = 4 + rest.length := by
    simp [encodeInt_length]
  have htake : (encodeInt n ++ rest).take 4 = encodeInt n := by
    rw [show 4 = (encodeInt n).length from (encodeInt_length n).symm]
    exact List.take_left _ _
  have hdrop : (encodeInt n ++ rest).drop 4 = rest := by
    rw [show 4 = (encodeInt n).length from (encodeInt_length n).symm]
    exact List.drop_left _ _
  simp only [ReadBuffer.readInt, ReadBuffer.read0, hlen]
  rw [if_pos (by omega)]
  simp only [htake, hdrop, decodeBytesLE_encodeInt, toSigned32_mod n h1 h2]

theorem takeWhile_ne_zero_eq_self {s : List Nat} (h : 0 ∉ s) : cString s = s := by
  induction s with
  | nil => rfl
  | cons b bs ih =>
    simp only [List.mem_cons] at h
    push_neg at h
    have hb : b ≠ 0 := fun hb0 => h.1 hb0.symm
    simp only [cString, List.takeWhile_cons] at ih ⊢
    simp [hb]
    intro x hx hx0
    exact h.2 (hx0 ▸ hx)

/-! ## Claims -/

/-- Claim C3 (counterexample): decoding the length-prefixed encoding of the
byte string `[97, 0, 98]` — which contains an interior NUL — yields
`[97]`, not the original string: `CsDtInputStream::read(std::string&)`
builds the result with `std::string(buffer.data())`, which stops at the
first NUL byte. -/
theorem c3_roundtrip_counterexample :
    (ReadBuffer.mk ((WriteBuffer.nil.writeString [97, 0, 98] 0).2.bytes)).readString 0
      = some ([97], ⟨[]⟩) ∧ ([97] : List Nat) ≠ [97, 0, 98] := by
  constructor
  · rfl
  · decide

/-- Claim C3 (amended): the 4-byte integer codec round-trips every value
representable in a 32-bit `int`; decoding the length-prefixed encoding of
a byte string `s` with `|s| < 2^31` yields the prefix of `s` up to its
first NUL byte — hence exactly `s` whenever `s` contains no NUL byte. -/
theorem c3_codec_roundtrip :
    (∀ n : Int, -(2 ^ 31) ≤ n → n < 2 ^ 31 →
       (ReadBuffer.mk (encodeInt n)).readInt = some (n, ⟨[]⟩)) ∧
    (∀ s : List Nat, s.length < 2 ^ 31 →
       (ReadBuffer.mk ((WriteBuffer.nil.writeString s 0).2.bytes)).readString 0
         = some (cString s, ⟨[]⟩)) ∧
    (∀ s : List Nat, 0 ∉ s → cString s = s) := by
  refine ⟨?_, ?_, fun s h => takeWhile_ne_zero_eq_self h⟩
  · intro n h1 h2
    have := readInt_of_encodeInt n [] h1 h2
    simpa using this
  · intro s hs
    have hbytes : (WriteBuffer.nil.writeString s 0).2.bytes
        = encodeInt (s.length : Int) ++ s := by
      simp [WriteBuffer.writeString, WriteBuffer.writeInt, WriteBuffer.write0,
        WriteBuffer.nil]
    rw [hbytes]
    have hrange1 : -(2 ^ 31) ≤ (s.length : Int) := by omega
    have hrange2 : (s.length : Int) < 2 ^ 31 := by omega
    simp only [ReadBuffer.readString,
      readInt_of_encodeInt (s.length : Int) s hrange1 hrange2]
    rw [if_neg (by omega), if_neg (by simp)]
    simp [ReadBuffer.read0]

/-- Witness for C3 (amended): both round-trip parts evaluated at concrete
inputs, `n = -7` and `s = "ab"`. -/
theorem c3_codec_roundtrip_witness :
    (ReadBuffer.mk (encodeInt (-7))).readInt = some (-7, ⟨[]⟩) ∧
    (ReadBuffer.mk ((WriteBuffer.nil.writeString (ascii "ab") 0).2.bytes)).readString 0
      = some (cString (ascii "ab"), ⟨[]⟩) :=
  ⟨c3_codec_roundtrip.1 (-7) (by decide) (by decide),
   c3_codec_roundtrip.2.1 (ascii "ab") (by decide)⟩

/-- Claim C9: every server→client message produced by `send()` is the
4-byte packet id `0` followed by the 4-byte length prefix and the message
bytes — 8 + |msg| bytes in total, with no outer total-length frame
wrapping the pair. -/
theorem c9_send_framing (msg : List Nat) :
    sendPacket msg = encodeInt 0 ++ (encodeInt (msg.length : Int) ++ msg) ∧
    (sendPacket msg).length = 8 + msg.length := by
  have h : sendPacket msg = encodeInt 0 ++ (encodeInt (msg.length : Int) ++ msg) := by
    simp [sendPacket, WriteBuffer.writeString, WriteBuffer.writeInt,
      WriteBuffer.write0, WriteBuffer.nil]
  refine ⟨h, ?_⟩
  rw [h]
  simp [encodeInt_length]
  omega

/-- Claim C10: `userOnline` is atomic on failure — a name already in the
taken-names set is refused with the set and the connection's registered
`clientName` unchanged; an absent name is accepted, inserted into the set,
and recorded as the connection's `clientName`. -/
theorem c10_userOnline_atomic (sv : Service) (s : List Nat) :
    (s ∈ sv.names → userOnline sv s = (false, sv)) ∧
    (s ∉ sv.names →
       (userOnline sv s).1 = true ∧
       (userOnline sv s).2.clientName = s ∧
       (∀ t, t ∈ (userOnline sv s).2.names ↔ t = s ∨ t ∈ sv.names)) := by
  constructor
  · intro hmem
    simp [userOnline, hmem]
  · intro hmem
    have hu : userOnline sv s = (true, ⟨insertName s sv.names, s⟩) := by
      simp [userOnline, hmem]
    rw [hu]
    exact ⟨rfl, rfl, fun t => mem_insertName t s sv.names⟩

/-- Witness for C10: in the set `{Bob}`, registering `Bob` fails and
changes nothing, and registering `Ann` succeeds and inserts it. -/
theorem c10_userOnline_atomic_witness :
    userOnline ⟨[ascii "Bob"], []⟩ (ascii "Bob") = (false, ⟨[ascii "Bob"], []⟩) ∧
    ((userOnline ⟨[ascii "Bob"], []⟩ (ascii "Ann")).1 = true ∧
     (userOnline ⟨[ascii "Bob"], []⟩ (ascii "Ann")).2.clientName = ascii "Ann" ∧
     (∀ t, t ∈ (userOnline ⟨[ascii "Bob"], []⟩ (ascii "Ann")).2.names ↔
        t = ascii "Ann" ∨ t ∈ [ascii "Bob"])) :=
  ⟨(c10_userOnline_atomic ⟨[ascii "Bob"], []⟩ (ascii "Bob")).1 (by decide),
   (c10_userOnline_atomic ⟨[ascii "Bob"], []⟩ (ascii "Ann")).2 (by decide)⟩

/-- Claim C4 (code bug): the command-splitting loop of `processPacket`
case 1 never terminates on a command whose remaining text starts with a
space — `command.find(" ")` returns 0, and the loop body is guarded by
`if(position > 0)`, so nothing changes from one iteration to the next.
For the payload `" x"` the loop runs out of any amount of fuel. -/
theorem c4_split_diverges_on_leading_space :
    ∀ fuel : Nat, splitCommand fuel (ascii " x") = none := by
  have key : ∀ (fuel : Nat) (args : List (List Nat)) (l : List Nat),
      splitLoop fuel args (32 :: l) = none := by
    intro fuel
    induction fuel with
    | zero => intro args l; rfl
    | succ n ih =>
      intro args l
      have hf : findSpace (32 :: l) = some 0 := by simp [findSpace]
      simp only [splitLoop, hf]
      simpa using ih args l
  intro fuel
  have : splitLoop fuel [] (ascii " x") = none := by
    have hx : ascii " x" = 32 :: [120] := by decide
    rw [hx]
    exact key fuel [] [120]
  simp [splitCommand, this]

/-- Claim C1 (counterexample): a 4-byte name length of 0 delivered in
state `stNameSize` moves the session to `stNameBuffer`, not to
`stTerminated` — the code only checks `dataSize >= 64`.  (The connection
is still closed afterwards, but through the zero-sized next window, not
through the FSM state.) -/
theorem c1_zero_length_counterexample :
    bufferFilled 1 ⟨stNameSize, 0, [], false, []⟩ ⟨[], []⟩ []
      = some (⟨stNameBuffer, 0, [], false, []⟩, ⟨[], []⟩, Effects.nil) ∧
    (stNameBuffer ≠ stTerminated) := by
  constructor
  · rfl
  · decide

/-- Claim C1 (amended): in state `stNameSize` with a filled length `L`,
the next state is `stNameBuffer` iff `L < 64` (as a signed 32-bit
comparison) and `stTerminated` iff `L ≥ 64`; the buffer is resized to `L`
as a `size_t`.  In particular `L = 0` and negative `L` lead to
`stNameBuffer`; for `L = 0` the next read window has size 0, which the
reactor's `receive` treats as connection termination. -/
theorem c1_name_length_transition (fuel : Nat) (h : Handler) (sv : Service)
    (ip : List Nat) (hst : h.status = stNameSize) :
    ∃ h' : Handler,
      bufferFilled fuel h sv ip = some (h', sv, Effects.nil) ∧
      (h'.status = stNameBuffer ↔ h.dataSize < 64) ∧
      (h'.status = stTerminated ↔ 64 ≤ h.dataSize) ∧
      (h.dataSize < 64 →
        h'.dataBuffer = vecResize h.dataBuffer (intToSizeT h.dataSize)) ∧
      (h.dataSize = 0 → h'.next = 0) := by
  obtain ⟨st, ds, db, hj, cn⟩ := h
  simp only at hst
  subst hst
  by_cases hge : ds ≥ 64
  · refine ⟨⟨stTerminated, ds, db, hj, cn⟩, ?_, ?_, ?_, ?_, ?_⟩
    · simp [bufferFilled, hge]
    · dsimp only
      constructor
      · intro hc; exact absurd hc (by decide)
      · intro hlt; omega
    · dsimp only
      exact ⟨fun _ => hge, fun _ => rfl⟩
    · intro hlt
      dsimp only at hlt
      omega
    · intro h0
      dsimp only at h0
      omega
  · refine ⟨⟨stNameBuffer, ds, vecResize db (intToSizeT ds), hj, cn⟩, ?_, ?_, ?_, ?_, ?_⟩
    · simp [bufferFilled, hge]
    · dsimp only
      exact ⟨fun _ => by omega, fun _ => rfl⟩
    · dsimp only
      constructor
      · intro hc; exact absurd hc (by decide)
      · intro hge2; exact absurd hge2 hge
    · intro _; rfl
    · intro h0
      dsimp only at h0
      subst h0
      simp [Handler.next, intToSizeT]

/-- Witness for C1 (amended): at `L = 70` the theorem applies and the next
state is `stTerminated`; evaluated concretely. -/
theorem c1_name_length_transition_witness :
    ∃ h' : Handler,
      bufferFilled 1 ⟨stNameSize, 70, [], false, []⟩ ⟨[], []⟩ []
          = some (h', ⟨[], []⟩, Effects.nil) ∧
      (h'.status = stNameBuffer ↔ (70 : Int) < 64) ∧
      (h'.status = stTerminated ↔ (64 : Int) ≤ 70) ∧
      ((70 : Int) < 64 →
        h'.dataBuffer = vecResize [] (intToSizeT 70)) ∧
      ((70 : Int) = 0 → h'.next = 0) :=
  c1_name_length_transition 1 ⟨stNameSize, 70, [], false, []⟩ ⟨[], []⟩ [] rfl

/-- Claim C8: completing the name handshake with a name already in the
taken-names set makes the session send exactly one message — beginning,
after the leading color escape, with "Sorry but", and containing the
duplicate name — transition to `stTerminated` with a zero next window (so
the reactor closes the connection), leave the taken-names set and the
service's registered `clientName` unchanged, emit no broadcast and no log
line, and not mark the session as joined. -/
theorem c8_duplicate_name_rejection (fuel : Nat) (h : Handler) (sv : Service)
    (ip : List Nat) (hst : h.status = stNameBuffer)
    (hdup : cString h.dataBuffer ∈ sv.names) :
    ∃ msg : List Nat,
      bufferFilled fuel h sv ip =
        some ({ h with status := stTerminated,
                       clientName := cString h.dataBuffer,
                       dataBuffer := [] },
              sv, ⟨[msg], [], []⟩) ∧
      (∃ rest, msg = fmtRed ++ ascii "Sorry but" ++ rest) ∧
      (∃ u v, msg = u ++ cString h.dataBuffer ++ v) ∧
      ({ h with status := stTerminated,
                clientName := cString h.dataBuffer,
                dataBuffer := ([] : List Nat) } : Handler).next = 0 ∧
      ({ h with status := stTerminated,
                clientName := cString h.dataBuffer,
                dataBuffer := ([] : List Nat) } : Handler).hasJoinedServer
        = h.hasJoinedServer := by
  obtain ⟨st, ds, db, hj, cn⟩ := h
  simp only at hst
  subst hst
  refine ⟨rejectMessage (cString db), ?_, ?_, ?_, rfl, rfl⟩
  · simp only [bufferFilled, userOnline]
    rw [if_pos (by simpa using hdup)]
  · refine ⟨ascii " " ++ fmtMagenta ++ cString db ++ fmtRed ++
      ascii " is already online, why not choose another name?", ?_⟩
    simp only [rejectMessage]
    have hsplit : ascii "Sorry but " = ascii "Sorry but" ++ ascii " " := by decide
    rw [hsplit]
    simp [List.append_assoc]
  · exact ⟨fmtRed ++ ascii "Sorry but " ++ fmtMagenta,
      fmtRed ++ ascii " is already online, why not choose another name?",
      by simp [rejectMessage, List.append_assoc]⟩

/-- Witness for C8: a concrete duplicate — the set already holds `Bob` and
the filled name buffer reads `Bob`. -/
theorem c8_duplicate_name_rejection_witness :
    ∃ msg : List Nat,
      bufferFilled 1 ⟨stNameBuffer, 3, ascii "Bob", false, []⟩
          ⟨[ascii "Bob"], []⟩ (ascii "1.2.3.4:5") =
        some (⟨stTerminated, 3, [], false, cString (ascii "Bob")⟩,
              ⟨[ascii "Bob"], []⟩, ⟨[msg], [], []⟩) ∧
      (∃ rest, msg = fmtRed ++ ascii "Sorry but" ++ rest) ∧
      (∃ u v, msg = u ++ cString (ascii "Bob") ++ v) ∧
      (⟨stTerminated, 3, [], false, cString (ascii "Bob")⟩ : Handler).next = 0 ∧
      (⟨stTerminated, 3, [], false, cString (ascii "Bob")⟩ : Handler).hasJoinedServer
        = false :=
  c8_duplicate_name_rejection 1 ⟨stNameBuffer, 3, ascii "Bob", false, []⟩
    ⟨[ascii "Bob"], []⟩ (ascii "1.2.3.4:5") rfl (by decide)

/-- Claim C7: the `receive()` contract, by cases on the modeled outcome of
the one non-blocking read (`readPointer` is `c.pending.length`):
a retry-would-block returns Idle (0) with everything unchanged; a
non-retryable error returns Closed (-1); a zero-byte read returns Closed;
a partial read advances the read offset by the bytes read without
notifying the session; an exact fill notifies the session via
`bufferFilled`, resets the read offset to zero, queries the session's next
window again, and returns Closed iff that window has size zero. -/
theorem c7_receive_contract (fuel : Nat) (c : RecvConn) (sv : Service)
    (ip : List Nat) :
    (receive fuel c sv ip .wouldBlock = some (0, c, sv, Effects.nil)) ∧
    (receive fuel c sv ip .errOther = some (-1, c, sv, Effects.nil)) ∧
    (receive fuel c sv ip (.bytes []) = some (-1, c, sv, Effects.nil)) ∧
    (∀ bs : List Nat, bs ≠ [] →
       c.pending.length + bs.length < c.handler.next →
       receive fuel c sv ip (.bytes bs)
         = some (0, ⟨c.handler, c.pending ++ bs⟩, sv, Effects.nil)) ∧
    (∀ (bs : List Nat) (h' : Handler) (sv' : Service) (eff : Effects),
       bs ≠ [] →
       c.pending.length + bs.length = c.handler.next →
       bufferFilled fuel (c.handler.fill (c.pending ++ bs)) sv ip
         = some (h', sv', eff) →
       receive fuel c sv ip (.bytes bs)
         = some (if h'.next = 0 then -1 else 0, ⟨h', []⟩, sv', eff)) := by
  refine ⟨rfl, rfl, rfl, ?_, ?_⟩
  · intro bs hne hlt
    have hlen : ¬(bs.length = 0) := by simpa using hne
    have hfull : ¬(c.pending.length + bs.length = c.handler.next) := by omega
    have hnz : ¬((⟨c.handler, c.pending ++ bs⟩ : RecvConn).handler.next = 0) := by
      dsimp only
      omega
    simp only [receive]
    rw [if_neg hlen, if_neg hfull, if_neg hnz]
  · intro bs h' sv' eff hne hfull hbf
    have hlen : ¬(bs.length = 0) := by simpa using hne
    simp only [receive]
    rw [if_neg hlen, if_pos hfull, hbf]
    by_cases hz : h'.next = 0 <;> simp [hz]

/-- Witness for C7: the contract evaluated on a fresh connection — the
would-block case, and an exact 4-byte fill with length 10, after which the
session awaits the 10 name bytes and `receive` returns Idle. -/
theorem c7_receive_contract_witness :
    (receive 1 ⟨initHandler, []⟩ ⟨[], []⟩ [] .wouldBlock
       = some (0, ⟨initHandler, []⟩, ⟨[], []⟩, Effects.nil)) ∧
    (receive 1 ⟨initHandler, []⟩ ⟨[], []⟩ [] (.bytes (encodeInt 10))
       = some (if (⟨stNameBuffer, 10, List.replicate 10 0, false, []⟩ : Handler).next = 0
                 then -1 else 0,
               ⟨⟨stNameBuffer, 10, List.replicate 10 0, false, []⟩, []⟩,
               ⟨[], []⟩, Effects.nil)) :=
  ⟨(c7_receive_contract 1 ⟨initHandler, []⟩ ⟨[], []⟩ []).1,
   (c7_receive_contract 1 ⟨initHandler, []⟩ ⟨[], []⟩ []).2.2.2.2
     (encodeInt 10) ⟨stNameBuffer, 10, List.replicate 10 0, false, []⟩
     ⟨[], []⟩ Effects.nil (by decide) (by decide) (by decide)⟩

/-! ### Outbound-queue lemmas -/

theorem headD_append_of_ne_nil {α : Type} (l r : List α) (d : α)
    (h : l ≠ []) : (l ++ r).headD d = l.headD d := by
  cases l with
  | nil => exact absurd rfl h
  | cons a as => rfl

/-- The outbound-queue invariant of the amended claim C6: the size queue
mirrors the buffer queue, `writePointer` is zero when the queue is empty,
and `writePointer` is strictly below the head chunk's recorded size
(`outputSizes.front()`) when the queue is non-empty. -/
def QInv (q : OutQueue) : Prop :=
  q.sizes.length = q.bufs.length ∧
  (q.bufs = [] → q.wp = 0) ∧
  (q.bufs ≠ [] → q.wp < q.sizes.headD 0)

/-- `nextSend` preserves the queue invariant. -/
theorem nextSend_preserves_QInv (w : Nat → WriteOutcome) (fuel : Nat)
    (q : OutQueue) (p : List Nat) (q' : OutQueue) (hinv : QInv q)
    (hsend : nextSend w fuel q p = some q') : QInv q' := by
  obtain ⟨hlen, hemp, hne⟩ := hinv
  simp only [nextSend] at hsend
  by_cases hq : q.bufs.length > 0
  · rw [if_pos hq] at hsend
    injection hsend with hq'
    subst hq'
    have hbne : q.bufs ≠ [] := by
      intro hb; rw [hb] at hq; simp at hq
    have hsne : q.sizes ≠ [] := by
      intro hs
      rw [hs] at hlen
      simp at hlen
      omega
    refine ⟨by simp [hlen], by simp, ?_⟩
    intro _
    rw [headD_append_of_ne_nil q.sizes [p.length] 0 hsne]
    exact hne hbne
  · rw [if_neg hq] at hsend
    cases hloop : nextSendLoop w fuel 0 0 p.length with
    | none =>
      rw [hloop] at hsend
      exact absurd hsend (by simp)
    | some r =>
      obtain ⟨ex, dataSent, i'⟩ := r
      rw [hloop] at hsend
      cases ex with
      | zeroReturn =>
        have hsend' : some q = some q' := hsend
        injection hsend' with hq'
        subst hq'
        exact ⟨hlen, hemp, hne⟩
      | complete =>
        have hsend' : (if dataSent < p.length then
            some (⟨[p.drop dataSent], [p.length], dataSent, true⟩ : OutQueue)
          else some q) = some q' := hsend
        by_cases hrem : dataSent < p.length
        · rw [if_pos hrem] at hsend'
          injection hsend' with hq'
          subst hq'
          exact ⟨rfl, by simp, fun _ => hrem⟩
        · rw [if_neg hrem] at hsend'
          injection hsend' with hq'
          subst hq'
          exact ⟨hlen, hemp, hne⟩
      | errBreak =>
        have hsend' : (if dataSent < p.length then
            some (⟨[p.drop dataSent], [p.length], dataSent, true⟩ : OutQueue)
          else some q) = some q' := hsend
        by_cases hrem : dataSent < p.length
        · rw [if_pos hrem] at hsend'
          injection hsend' with hq'
          subst hq'
          exact ⟨rfl, by simp, fun _ => hrem⟩
        · rw [if_neg hrem] at hsend'
          injection hsend' with hq'
          subst hq'
          exact ⟨hlen, hemp, hne⟩

/-- A completed `transfer` call preserves the queue invariant, and pops a
chunk only when `writePointer` has reached its recorded size: the ghost
`pops` entries record the pointer and the recorded size at each pop, and
all of them are equal pairs. -/
theorem transfer_spec (w : Nat → WriteOutcome) :
    ∀ (fuel i : Nat) (q : OutQueue) (pops : List (Nat × Nat))
      (res : Option (OutQueue × List (Nat × Nat))),
    q.sizes.length = q.bufs.length →
    (q.bufs = [] → q.wp = 0) →
    (q.bufs ≠ [] → q.wp ≤ q.sizes.headD 0) →
    (∀ p ∈ pops, p.1 = p.2) →
    transfer w fuel i q pops = some res →
    (∀ q' pops', res = some (q', pops') →
       QInv q' ∧ (∀ p ∈ pops', p.1 = p.2)) := by
  intro fuel
  induction fuel with
  | zero =>
    intro i q pops res _ _ _ _ ht
    simp [transfer] at ht
  | succ n ih =>
    intro i q pops res hlen hemp hle hpops ht
    obtain ⟨bufs, sizes, wp, pollout⟩ := q
    cases bufs with
    | nil =>
      simp only [transfer] at ht
      injection ht with h1
      subst h1
      intro q' pops' hres
      injection hres with h2
      have hq' : (⟨[], sizes, wp, false⟩ : OutQueue) = q' :=
        congrArg Prod.fst h2
      have hp' : pops = pops' := congrArg Prod.snd h2
      subst hq'
      subst hp'
      refine ⟨⟨?_, fun _ => hemp rfl, fun hne => absurd rfl hne⟩, hpops⟩
      simpa using hlen
    | cons b bs =>
      cases sizes with
      | nil => simp at hlen
      | cons sz szs =>
        simp only [transfer] at ht
        by_cases hwp : wp < sz
        · rw [if_pos hwp] at ht
          cases hw : w i with
          | errOther =>
            simp only [hw] at ht
            injection ht with h1
            subst h1
            intro q' pops' hres
            exact absurd hres (by simp)
          | wouldBlock =>
            simp only [hw] at ht
            injection ht with h1
            subst h1
            intro q' pops' hres
            injection hres with h2
            have hq' : (⟨b :: bs, sz :: szs, wp, pollout⟩ : OutQueue) = q' :=
              congrArg Prod.fst h2
            have hp' : pops = pops' := congrArg Prod.snd h2
            subst hq'
            subst hp'
            refine ⟨⟨by simpa using hlen, by simp, fun _ => hwp⟩, hpops⟩
          | ok k =>
            cases k with
            | zero =>
              simp only [hw] at ht
              injection ht with h1
              subst h1
              intro q' pops' hres
              exact absurd hres (by simp)
            | succ m =>
              simp only [hw] at ht
              refine ih (i + 1)
                ⟨b :: bs, sz :: szs, wp + min (m + 1) (sz - wp), pollout⟩
                pops res (by simpa using hlen) (by intro h; simp at h) ?_ hpops ht
              intro _
              simp only [List.headD_cons]
              omega
        · rw [if_neg hwp] at ht
          have hwpeq : wp = sz := by
            have := hle (by simp)
            simp only [List.headD_cons] at this
            omega
          refine ih i ⟨bs, szs, 0, pollout⟩ (pops ++ [(wp, sz)]) res
            (by simpa using hlen) (fun _ => rfl) (fun _ => Nat.zero_le _) ?_ ht
          intro p hp
          rcases List.mem_append.mp hp with h' | h'
          · exact hpops p h'
          · simp only [List.mem_singleton] at h'
            subst h'
            exact hwpeq

/-- Every reachable queue state satisfies the invariant. -/
theorem qreachable_QInv (q : OutQueue) (hq : QReachable q) : QInv q := by
  induction hq with
  | init => exact ⟨rfl, fun _ => rfl, fun hne => absurd rfl hne⟩
  | step hr hs ih =>
    cases hs with
    | send w fuel payload hsend =>
      exact nextSend_preserves_QInv w fuel _ payload _ ih hsend
    | xfer w fuel pops ht =>
      obtain ⟨hlen, hemp, hne⟩ := ih
      exact (transfer_spec w fuel 0 _ [] _ hlen hemp
        (fun h => Nat.le_of_lt (hne h)) (by simp) ht _ pops rfl).1
    | xferErr w fuel ht =>
      obtain ⟨hlen, hemp, hne⟩ := ih
      exact ⟨hlen, hemp, hne⟩

/-- Claim C5 (code bug): with an empty outbound queue and a socket whose
send buffer stays full (every `write` fails with `EWOULDBLOCK`),
`nextSend` never exits its send loop — the `continue` taken on
`EWOULDBLOCK` retries the write with nothing changed, so no fuel bound
suffices: the residual is never cloned into the queue, POLLOUT is never
enabled, and the call never returns.  (`transfer` has the branches the
right way round; `nextSend` breaks to the residual-queueing path only on
a non-retryable error.) -/
theorem c5_enqueue_spins_on_would_block :
    ∀ fuel : Nat,
      nextSend (fun _ => WriteOutcome.wouldBlock) fuel initQueue (ascii "hi")
        = none := by
  have key : ∀ (fuel i dataSent size : Nat), dataSent < size →
      nextSendLoop (fun _ => WriteOutcome.wouldBlock) fuel i dataSent size
        = none := by
    intro fuel
    induction fuel with
    | zero => intro i d szz _; rfl
    | succ n ih =>
      intro i d szz hds
      simp only [nextSendLoop]
      rw [if_pos hds]
      exact ih (i + 1) d szz hds
  intro fuel
  have h2 : (ascii "hi").length = 2 := by decide
  simp only [nextSend, initQueue]
  rw [if_neg (by simp), h2, key fuel 0 0 2 (by omega)]

/-- Claim C6 (counterexample): the queue state reached by enqueueing
`[7, 7]` on an empty queue when the first write sends one byte and the
second fails with a non-retryable error is `bufs = [[7]]`, `sizes = [2]`,
`write_offset = 1`: only the one residual byte was cloned, yet the
recorded size is the full 2 and the offset is 1, so `write_offset` is not
strictly less than the length of the head chunk's byte buffer. -/
theorem c6_clone_length_counterexample :
    QReachable ⟨[[7]], [2], 1, true⟩ ∧
    ¬((⟨[[7]], [2], 1, true⟩ : OutQueue).wp
        < ((⟨[[7]], [2], 1, true⟩ : OutQueue).bufs.headD []).length) := by
  constructor
  · refine QReachable.step QReachable.init
      (QStep.send (fun i => if i = 0 then WriteOutcome.ok 1 else WriteOutcome.errOther)
        3 [7, 7] ?_)
    rfl
  · decide

/-- Claim C6 (amended): in every reachable queue state between reactor
iterations, `write_offset` is zero whenever the queue is empty and is
strictly less than the head chunk's *recorded* length (the
`outputSizes` entry) whenever the queue is non-empty; and a completed
`transfer` pops a chunk only once `write_offset` has reached that
recorded length.  (The head chunk's cloned byte buffer can be shorter
than its recorded length — it holds only the residual bytes — so the
bound holds for the recorded length, not for the clone's length.) -/
theorem c6_queue_invariant (q : OutQueue) (hq : QReachable q) :
    (q.bufs = [] → q.wp = 0) ∧
    (q.bufs ≠ [] → q.wp < q.sizes.headD 0) ∧
    (∀ (w : Nat → WriteOutcome) (fuel : Nat) (q' : OutQueue)
       (pops : List (Nat × Nat)),
       transfer w fuel 0 q [] = some (some (q', pops)) →
       ∀ p ∈ pops, p.1 = p.2) := by
  obtain ⟨hlen, hemp, hne⟩ := qreachable_QInv q hq
  refine ⟨hemp, hne, ?_⟩
  intro w fuel q' pops ht
  exact (transfer_spec w fuel 0 q [] (some (q', pops)) hlen hemp
    (fun h => Nat.le_of_lt (hne h)) (by simp) ht q' pops rfl).2

/-- Witness for C6 (amended): the theorem applied to the initial queue. -/
theorem c6_queue_invariant_witness :
    (initQueue.bufs = [] → initQueue.wp = 0) ∧
    (initQueue.bufs ≠ [] → initQueue.wp < initQueue.sizes.headD 0) ∧
    (∀ (w : Nat → WriteOutcome) (fuel : Nat) (q' : OutQueue)
       (pops : List (Nat × Nat)),
       transfer w fuel 0 initQueue [] = some (some (q', pops)) →
       ∀ p ∈ pops, p.1 = p.2) :=
  c6_queue_invariant initQueue QReachable.init

/-! ### Reactor lemmas for the taken-names invariant -/

theorem triple_eq {A B C : Type} {a a' : A} {b b' : B} {c c' : C}
    (h : (a, b, c) = (a', b', c')) : a = a' ∧ b = b' ∧ c = c' := by
  injection h with h1 h2
  injection h2 with h2 h3
  exact ⟨h1, h2, h3⟩

theorem fill_status (h : Handler) (bs : List Nat) :
    (h.fill bs).status = h.status := by
  obtain ⟨st, ds, db, hj, cn⟩ := h
  cases st <;> rfl

/-- How one `bufferFilled` call can touch the service slice: either it
leaves it unchanged, or the handler was in `stNameBuffer`, the truncated
buffer contents were not yet taken, and the call registered them —
inserting the name, recording it as the connection's `clientName`, and
moving the handler to `stPacketSize`. -/
theorem bufferFilled_service (fuel : Nat) (h : Handler) (sv : Service)
    (ip : List Nat) (h' : Handler) (sv' : Service) (eff : Effects)
    (hbf : bufferFilled fuel h sv ip = some (h', sv', eff)) :
    (sv' = sv) ∨
    (h.status = stNameBuffer ∧ cString h.dataBuffer ∉ sv.names ∧
     sv' = ⟨insertName (cString h.dataBuffer) sv.names, cString h.dataBuffer⟩ ∧
     h'.status = stPacketSize) := by
  obtain ⟨st, ds, db, hj, cn⟩ := h
  cases st with
  | stNameSize =>
    simp only [bufferFilled] at hbf
    split at hbf <;>
    · injection hbf with h1
      exact Or.inl (triple_eq h1).2.1.symm
  | stPacketSize =>
    simp only [bufferFilled] at hbf
    injection hbf with h1
    exact Or.inl (triple_eq h1).2.1.symm
  | stTerminated =>
    simp only [bufferFilled] at hbf
    injection hbf with h1
    exact Or.inl (triple_eq h1).2.1.symm
  | stPacketData =>
    simp only [bufferFilled] at hbf
    split at hbf
    · exact absurd hbf (by simp)
    · split at hbf <;>
      · injection hbf with h1
        exact Or.inl (triple_eq h1).2.1.symm
  | stNameBuffer =>
    by_cases hmem : cString db ∈ sv.names
    · have heq : bufferFilled fuel ⟨stNameBuffer, ds, db, hj, cn⟩ sv ip
          = some (⟨stTerminated, ds, [], hj, cString db⟩, sv,
                  ⟨[rejectMessage (cString db)], [], []⟩) := by
        simp only [bufferFilled, userOnline]
        rw [if_pos hmem]
      rw [heq] at hbf
      injection hbf with h1
      exact Or.inl (triple_eq h1).2.1.symm
    · have heq : bufferFilled fuel ⟨stNameBuffer, ds, db, hj, cn⟩ sv ip
          = some (⟨stPacketSize, ds, [], true, cString db⟩,
                  ⟨insertName (cString db) sv.names, cString db⟩,
                  ⟨[welcomeMessage (cString db)], [joinMessage (cString db) ip],
                   [(joinMessage (cString db) ip, [cString db])]⟩) := by
        simp only [bufferFilled, userOnline]
        rw [if_neg hmem]
      rw [heq] at hbf
      injection hbf with h1
      obtain ⟨hh, h2, _⟩ := triple_eq h1
      refine Or.inr ⟨rfl, hmem, h2.symm, ?_⟩
      rw [← hh]

/-- A `bufferFilled` call never moves the handler back into the handshake
states: when the resulting status is `stNameSize` or `stNameBuffer`, the
handler was in `stNameSize` and the service slice is untouched. -/
theorem bufferFilled_early_status (fuel : Nat) (h : Handler) (sv : Service)
    (ip : List Nat) (h' : Handler) (sv' : Service) (eff : Effects)
    (hbf : bufferFilled fuel h sv ip = some (h', sv', eff))
    (hst' : h'.status = stNameSize ∨ h'.status = stNameBuffer) :
    h.status = stNameSize ∧ sv' = sv := by
  obtain ⟨st, ds, db, hj, cn⟩ := h
  cases st with
  | stNameSize =>
    simp only [bufferFilled] at hbf
    split at hbf <;>
    · injection hbf with h1
      exact ⟨rfl, (triple_eq h1).2.1.symm⟩
  | stPacketSize =>
    simp only [bufferFilled] at hbf
    injection hbf with h1
    rw [← (triple_eq h1).1] at hst'
    simp at hst'
  | stTerminated =>
    simp only [bufferFilled] at hbf
    injection hbf with h1
    rw [← (triple_eq h1).1] at hst'
    simp at hst'
  | stPacketData =>
    simp only [bufferFilled] at hbf
    split at hbf
    · exact absurd hbf (by simp)
    · split at hbf <;>
      · injection hbf with h1
        rw [← (triple_eq h1).1] at hst'
        simp at hst'
  | stNameBuffer =>
    by_cases hmem : cString db ∈ sv.names
    · have heq : bufferFilled fuel ⟨stNameBuffer, ds, db, hj, cn⟩ sv ip
          = some (⟨stTerminated, ds, [], hj, cString db⟩, sv,
                  ⟨[rejectMessage (cString db)], [], []⟩) := by
        simp only [bufferFilled, userOnline]
        rw [if_pos hmem]
      rw [heq] at hbf
      injection hbf with h1
      rw [← (triple_eq h1).1] at hst'
      simp at hst'
    · have heq : bufferFilled fuel ⟨stNameBuffer, ds, db, hj, cn⟩ sv ip
          = some (⟨stPacketSize, ds, [], true, cString db⟩,
                  ⟨insertName (cString db) sv.names, cString db⟩,
                  ⟨[welcomeMessage (cString db)], [joinMessage (cString db) ip],
                   [(joinMessage (cString db) ip, [cString db])]⟩) := by
        simp only [bufferFilled, userOnline]
        rw [if_neg hmem]
      rw [heq] at hbf
      injection hbf with h1
      rw [← (triple_eq h1).1] at hst'
      simp at hst'

theorem updConn_pos (m : Nat → Option RConn) (fd : Nat) (c : Option RConn) :
    updConn m fd c fd = c := by simp [updConn]

theorem updConn_neg (m : Nat → Option RConn) (fd : Nat) (c : Option RConn)
    (g : Nat) (h : g ≠ fd) : updConn m fd c g = m g := by simp [updConn, h]

/-- The inductive invariant of the reactor's name registry: the name set
has no duplicates; every non-empty name in the set belongs to some live
connection; every live connection's non-empty registered name is in the
set; connections still in the handshake states have no registered name;
and non-empty registered names identify their connection uniquely. -/
def RInv (s : Reactor) : Prop :=
  s.names.Nodup ∧
  (∀ n, n ∈ s.names → n ≠ [] →
     ∃ fd c, s.conns fd = some c ∧ c.svcName = n) ∧
  (∀ fd c, s.conns fd = some c → c.svcName ≠ [] → c.svcName ∈ s.names) ∧
  (∀ fd c, s.conns fd = some c →
     (c.handler.status = stNameSize ∨ c.handler.status = stNameBuffer) →
     c.svcName = []) ∧
  (∀ fd1 fd2 c1 c2, s.conns fd1 = some c1 → s.conns fd2 = some c2 →
     c1.svcName = c2.svcName → c1.svcName ≠ [] → fd1 = fd2)

theorem RInv_mk (conns : Nat → Option RConn) (names : List (List Nat))
    (hnd : names.Nodup)
    (h1 : ∀ n, n ∈ names → n ≠ [] →
       ∃ fd c, conns fd = some c ∧ c.svcName = n)
    (h2 : ∀ fd c, conns fd = some c → c.svcName ≠ [] → c.svcName ∈ names)
    (h3 : ∀ fd c, conns fd = some c →
       (c.handler.status = stNameSize ∨ c.handler.status = stNameBuffer) →
       c.svcName = [])
    (h5 : ∀ fd1 fd2 c1 c2, conns fd1 = some c1 → conns fd2 = some c2 →
       c1.svcName = c2.svcName → c1.svcName ≠ [] → fd1 = fd2) :
    RInv ⟨conns, names⟩ :=
  ⟨hnd, h1, h2, h3, h5⟩

theorem rinv_init : RInv initReactor := by
  refine ⟨List.nodup_nil, ?_, ?_, ?_, ?_⟩
  · intro n hn _
    simp [initReactor] at hn
  · intro fd c hc
    simp [initReactor] at hc
  · intro fd c hc
    simp [initReactor] at hc
  · intro fd1 fd2 c1 c2 hc1
    simp [initReactor] at hc1

/-- Removing one connection in the teardown sweep — erasing its non-empty
registered name from the set — preserves the registry invariant. -/
theorem rinv_remove (s : Reactor) (fd : Nat) (c : RConn)
    (hinv : RInv s) (hc : s.conns fd = some c) :
    RInv ⟨updConn s.conns fd none,
          if c.svcName ≠ [] then eraseName c.svcName s.names
          else s.names⟩ := by
  obtain ⟨hnd, h1, h2, h3, h5⟩ := hinv
  by_cases hscn : c.svcName = []
  · rw [if_neg (by simpa using hscn)]
    refine RInv_mk _ _ hnd ?_ ?_ ?_ ?_
    · intro n hn hne
      obtain ⟨fd', c', hc', heq⟩ := h1 n hn hne
      have hfd : fd' ≠ fd := by
        intro hf
        rw [hf, hc] at hc'
        injection hc' with hcc
        rw [← hcc, hscn] at heq
        exact hne heq.symm
      exact ⟨fd', c', by rw [updConn_neg _ _ _ _ hfd]; exact hc', heq⟩
    · intro fd'' c'' hc'' hnem
      by_cases hfd : fd'' = fd
      · rw [hfd, updConn_pos] at hc''
        exact absurd hc'' (by simp)
      · rw [updConn_neg _ _ _ _ hfd] at hc''
        exact h2 fd'' c'' hc'' hnem
    · intro fd'' c'' hc'' hstat
      by_cases hfd : fd'' = fd
      · rw [hfd, updConn_pos] at hc''
        exact absurd hc'' (by simp)
      · rw [updConn_neg _ _ _ _ hfd] at hc''
        exact h3 fd'' c'' hc'' hstat
    · intro fd1 fd2 c1 c2 hc1 hc2 heq hne
      by_cases hf1 : fd1 = fd
      · rw [hf1, updConn_pos] at hc1
        exact absurd hc1 (by simp)
      · rw [updConn_neg _ _ _ _ hf1] at hc1
        by_cases hf2 : fd2 = fd
        · rw [hf2, updConn_pos] at hc2
          exact absurd hc2 (by simp)
        · rw [updConn_neg _ _ _ _ hf2] at hc2
          exact h5 fd1 fd2 c1 c2 hc1 hc2 heq hne
  · rw [if_pos (by simpa using hscn)]
    refine RInv_mk _ _ (nodup_eraseName _ hnd) ?_ ?_ ?_ ?_
    · intro n hn hne
      obtain ⟨hn0, hnne⟩ := (mem_eraseName hnd).mp hn
      obtain ⟨fd', c', hc', heq⟩ := h1 n hn0 hne
      have hfd : fd' ≠ fd := by
        intro hf
        rw [hf, hc] at hc'
        injection hc' with hcc
        rw [← hcc] at heq
        exact hnne heq.symm
      exact ⟨fd', c', by rw [updConn_neg _ _ _ _ hfd]; exact hc', heq⟩
    · intro fd'' c'' hc'' hnem
      by_cases hfd : fd'' = fd
      · rw [hfd, updConn_pos] at hc''
        exact absurd hc'' (by simp)
      · rw [updConn_neg _ _ _ _ hfd] at hc''
        refine (mem_eraseName hnd).mpr ⟨h2 fd'' c'' hc'' hnem, ?_⟩
        intro hsame
        exact hfd (h5 fd'' fd c'' c hc'' hc hsame hnem)
    · intro fd'' c'' hc'' hstat
      by_cases hfd : fd'' = fd
      · rw [hfd, updConn_pos] at hc''
        exact absurd hc'' (by simp)
      · rw [updConn_neg _ _ _ _ hfd] at hc''
        exact h3 fd'' c'' hc'' hstat
    · intro fd1 fd2 c1 c2 hc1 hc2 heq hne
      by_cases hf1 : fd1 = fd
      · rw [hf1, updConn_pos] at hc1
        exact absurd hc1 (by simp)
      · rw [updConn_neg _ _ _ _ hf1] at hc1
        by_cases hf2 : fd2 = fd
        · rw [hf2, updConn_pos] at hc2
          exact absurd hc2 (by simp)
        · rw [updConn_neg _ _ _ _ hf2] at hc2
          exact h5 fd1 fd2 c1 c2 hc1 hc2 heq hne

theorem rinv_step {s s' : Reactor} (hinv : RInv s) (hstep : RStep s s') :
    RInv s' := by
  obtain ⟨hnd, h1, h2, h3, h5⟩ := hinv
  cases hstep with
  | accept fd ip hfree =>
    refine RInv_mk _ _ hnd ?_ ?_ ?_ ?_
    · intro n hn hne
      obtain ⟨fd', c', hc', heq⟩ := h1 n hn hne
      have hfd : fd' ≠ fd := by
        intro hf
        rw [hf, hfree] at hc'
        exact absurd hc' (by simp)
      exact ⟨fd', c', by rw [updConn_neg _ _ _ _ hfd]; exact hc', heq⟩
    · intro fd'' c'' hc'' hnem
      by_cases hfd : fd'' = fd
      · rw [hfd, updConn_pos] at hc''
        injection hc'' with hcc
        rw [← hcc] at hnem
        exact absurd rfl hnem
      · rw [updConn_neg _ _ _ _ hfd] at hc''
        exact h2 fd'' c'' hc'' hnem
    · intro fd'' c'' hc'' hstat
      by_cases hfd : fd'' = fd
      · rw [hfd, updConn_pos] at hc''
        injection hc'' with hcc
        rw [← hcc]
      · rw [updConn_neg _ _ _ _ hfd] at hc''
        exact h3 fd'' c'' hc'' hstat
    · intro fd1 fd2 c1 c2 hc1 hc2 heq hne
      by_cases hf1 : fd1 = fd
      · rw [hf1, updConn_pos] at hc1
        injection hc1 with hcc
        rw [← hcc] at hne
        exact absurd rfl hne
      · rw [updConn_neg _ _ _ _ hf1] at hc1
        by_cases hf2 : fd2 = fd
        · rw [hf2, updConn_pos] at hc2
          injection hc2 with hcc
          rw [← hcc] at heq
          rw [heq] at hne
          exact absurd rfl hne
        · rw [updConn_neg _ _ _ _ hf2] at hc2
          exact h5 fd1 fd2 c1 c2 hc1 hc2 heq hne
  | deliver fd c bs fuel h' sv' eff hc hlen hnz hbf hnext =>
    rcases bufferFilled_service fuel (c.handler.fill bs) ⟨s.names, c.svcName⟩
        c.ip h' sv' eff hbf with hsv | ⟨hstNB, hmem, hsveq, hst'⟩
    · subst hsv
      dsimp only
      refine RInv_mk _ _ hnd ?_ ?_ ?_ ?_
      · intro n hn hne
        obtain ⟨fd', c', hc', heq⟩ := h1 n hn hne
        by_cases hfd : fd' = fd
        · rw [hfd, hc] at hc'
          injection hc' with hcc
          refine ⟨fd, ⟨h', c.svcName, c.ip⟩, by rw [updConn_pos], ?_⟩
          rw [hcc]
          exact heq
        · exact ⟨fd', c', by rw [updConn_neg _ _ _ _ hfd]; exact hc', heq⟩
      · intro fd'' c'' hc'' hnem
        by_cases hfd : fd'' = fd
        · rw [hfd, updConn_pos] at hc''
          injection hc'' with hcc
          rw [← hcc] at hnem ⊢
          exact h2 fd c hc hnem
        · rw [updConn_neg _ _ _ _ hfd] at hc''
          exact h2 fd'' c'' hc'' hnem
      · intro fd'' c'' hc'' hstat
        by_cases hfd : fd'' = fd
        · rw [hfd, updConn_pos] at hc''
          injection hc'' with hcc
          rw [← hcc] at hstat ⊢
          have hearly := bufferFilled_early_status fuel (c.handler.fill bs)
            ⟨s.names, c.svcName⟩ c.ip h' _ eff hbf hstat
          have hcst : c.handler.status = stNameSize := by
            rw [← fill_status c.handler bs]
            exact hearly.1
          exact h3 fd c hc (Or.inl hcst)
        · rw [updConn_neg _ _ _ _ hfd] at hc''
          exact h3 fd'' c'' hc'' hstat
      · intro fd1 fd2 c1 c2 hc1 hc2 heq hne
        by_cases hf1 : fd1 = fd
        · by_cases hf2 : fd2 = fd
          · rw [hf1, hf2]
          · rw [hf1, updConn_pos] at hc1
            rw [updConn_neg _ _ _ _ hf2] at hc2
            injection hc1 with hcc
            rw [← hcc] at heq hne
            rw [hf1]
            exact h5 fd fd2 c c2 hc hc2 heq hne
        · rw [updConn_neg _ _ _ _ hf1] at hc1
          by_cases hf2 : fd2 = fd
          · rw [hf2, updConn_pos] at hc2
            injection hc2 with hcc
            rw [← hcc] at heq
            rw [heq] at hne
            have := h5 fd fd1 c c1 hc hc1 heq.symm hne
            rw [hf2, ← this]
          · rw [updConn_neg _ _ _ _ hf2] at hc2
            exact h5 fd1 fd2 c1 c2 hc1 hc2 heq hne
    · have hcst : c.handler.status = stNameBuffer := by
        rw [← fill_status c.handler bs]
        exact hstNB
      have hcsv : c.svcName = [] := h3 fd c hc (Or.inr hcst)
      subst hsveq
      dsimp only
      refine RInv_mk _ _ (nodup_insertName hnd hmem) ?_ ?_ ?_ ?_
      · intro n hn hne
        rcases (mem_insertName n _ s.names).mp hn with hn0 | hn0
        · exact ⟨fd, ⟨h', cString ((c.handler.fill bs).dataBuffer), c.ip⟩,
            by rw [updConn_pos], hn0.symm⟩
        · obtain ⟨fd', c', hc', heq⟩ := h1 n hn0 hne
          have hfd : fd' ≠ fd := by
            intro hf
            rw [hf, hc] at hc'
            injection hc' with hcc
            rw [← hcc, hcsv] at heq
            exact hne heq.symm
          exact ⟨fd', c', by rw [updConn_neg _ _ _ _ hfd]; exact hc', heq⟩
      · intro fd'' c'' hc'' hnem
        by_cases hfd : fd'' = fd
        · rw [hfd, updConn_pos] at hc''
          injection hc'' with hcc
          rw [← hcc]
          exact (mem_insertName _ _ _).mpr (Or.inl rfl)
        · rw [updConn_neg _ _ _ _ hfd] at hc''
          exact (mem_insertName _ _ _).mpr (Or.inr (h2 fd'' c'' hc'' hnem))
      · intro fd'' c'' hc'' hstat
        by_cases hfd : fd'' = fd
        · rw [hfd, updConn_pos] at hc''
          injection hc'' with hcc
          rw [← hcc] at hstat
          rw [hst'] at hstat
          rcases hstat with hcontra | hcontra <;> exact absurd hcontra (by decide)
        · rw [updConn_neg _ _ _ _ hfd] at hc''
          exact h3 fd'' c'' hc'' hstat
      · intro fd1 fd2 c1 c2 hc1 hc2 heq hne
        by_cases hf1 : fd1 = fd
        · by_cases hf2 : fd2 = fd
          · rw [hf1, hf2]
          · rw [hf1, updConn_pos] at hc1
            rw [updConn_neg _ _ _ _ hf2] at hc2
            injection hc1 with hcc
            rw [← hcc] at heq hne
            have hn2 : c2.svcName ≠ [] := by rw [← heq]; exact hne
            have := h2 fd2 c2 hc2 hn2
            rw [← heq] at this
            exact absurd this hmem
        · rw [updConn_neg _ _ _ _ hf1] at hc1
          by_cases hf2 : fd2 = fd
          · rw [hf2, updConn_pos] at hc2
            injection hc2 with hcc
            rw [← hcc] at heq
            have hn1 : c1.svcName ≠ [] := hne
            have := h2 fd1 c1 hc1 hn1
            rw [heq] at this
            exact absurd this hmem
          · rw [updConn_neg _ _ _ _ hf2] at hc2
            exact h5 fd1 fd2 c1 c2 hc1 hc2 heq hne
  | deliverKill fd c bs fuel h' sv' eff hc hlen hnz hbf hnext =>
    rcases bufferFilled_service fuel (c.handler.fill bs) ⟨s.names, c.svcName⟩
        c.ip h' sv' eff hbf with hsv | ⟨_, _, _, hst'⟩
    · subst hsv
      dsimp only
      exact rinv_remove s fd c ⟨hnd, h1, h2, h3, h5⟩ hc
    · have h4 : h'.next = 4 := by simp [Handler.next, hst']
      rw [h4] at hnext
      exact absurd hnext (by decide)
  | sweep fd c hc =>
    exact rinv_remove s fd c ⟨hnd, h1, h2, h3, h5⟩ hc

theorem rreach_RInv (s : Reactor) (hs : RReach s) : RInv s := by
  induction hs with
  | init => exact rinv_init
  | step hr hstep ih => exact rinv_step ih hstep

/-- The reactor state of the counterexample run for claim C2, the state
after a full client lifetime: the client was accepted, sent the 4-byte
name length 1, then the single name byte 0x00 — so
`std::string(dataBuffer.data())` produced the empty string, which
`userOnline` accepted and inserted into the taken-names set — and then
disconnected, whereupon the teardown sweep skipped the erase because of
its `clientName != ""` guard.  The registry is empty but the taken-names
set still holds the empty string. -/
def cexReactor : Reactor :=
  ⟨updConn (updConn (updConn (updConn initReactor.conns 0
      (some ⟨initHandler, [], []⟩)) 0
      (some ⟨⟨stNameBuffer, 1, [0], false, []⟩, [], []⟩)) 0
      (some ⟨⟨stPacketSize, 1, [], true, []⟩, [], []⟩)) 0 none,
   [[]]⟩

/-- Claim C2 (counterexample): the set equality fails at a reachable
loop-boundary state.  A client whose single name byte is NUL registers
the empty string (the C-string truncation in `bufferFilled` yields `""`,
which is absent from the set, so `userOnline` inserts it); the session
moves to `stPacketSize` with a non-zero window, so the connection
survives to the boundary.  When the peer then closes, the teardown sweep
erases the name only when `clientName != ""`, so the empty string stays
in the set.  At that boundary the taken-names set is `{""}` while no
live connection exists at all, refuting the claimed equality. -/
theorem c2_claim_counterexample :
    RReach cexReactor ∧ ¬ namesMatchClaim cexReactor := by
  constructor
  · exact RReach.step (RReach.step (RReach.step (RReach.step RReach.init
      (RStep.accept initReactor 0 [] rfl))
      (RStep.deliver _ 0 ⟨initHandler, [], []⟩ (encodeInt 1) 1
        ⟨stNameBuffer, 1, [0], false, []⟩ ⟨[], []⟩ Effects.nil rfl
        (by decide) (by decide) (by decide) (by decide)))
      (RStep.deliver _ 0 ⟨⟨stNameBuffer, 1, [0], false, []⟩, [], []⟩ [0] 1
        ⟨stPacketSize, 1, [], true, []⟩ ⟨[[]], []⟩
        ⟨[welcomeMessage []], [joinMessage [] []], [(joinMessage [] [], [[]])]⟩
        rfl (by decide) (by decide) (by decide) (by decide)))
      (RStep.sweep _ 0 ⟨⟨stPacketSize, 1, [], true, []⟩, [], []⟩ rfl)
  · intro hcl
    rcases (hcl []).mp (by decide) with ⟨fd, c, hc, _, _⟩
    by_cases hf : fd = 0
    · rw [hf] at hc
      simp [cexReactor, updConn] at hc
    · simp [cexReactor, updConn, hf, initReactor] at hc

/-- Claim C2 (amended): at every reactor-loop boundary, the equality of
the claim holds for the non-empty names: a non-empty name is in the
taken-names set iff it is the display-name field of a live connection
whose session state is past AwaitingNameBytes (`stPacketSize` or later,
including `stTerminated` connections not yet swept, as the claim words
it — with the same-iteration teardown sweep such connections never
actually survive to a boundary).  The restriction to non-empty names is
forced by the counterexample: a client whose name bytes begin with NUL
registers the empty string, and the teardown sweep's `clientName != ""`
guard never erases it, leaving a stale empty entry in the set with no
live connection carrying it. -/
theorem c2_taken_names_invariant (s : Reactor) (hs : RReach s) :
    ∀ n : List Nat, n ≠ [] →
      (n ∈ s.names ↔
        ∃ fd c, s.conns fd = some c ∧ statusPastNameBytes c.handler.status ∧
          c.svcName = n) := by
  obtain ⟨hnd, h1, h2, h3, h5⟩ := rreach_RInv s hs
  intro n hne
  constructor
  · intro hn
    obtain ⟨fd, c, hc, heq⟩ := h1 n hn hne
    refine ⟨fd, c, hc, ⟨?_, ?_⟩, heq⟩
    · intro hstat
      have h0 := h3 fd c hc (Or.inl hstat)
      rw [heq] at h0
      exact hne h0
    · intro hstat
      have h0 := h3 fd c hc (Or.inr hstat)
      rw [heq] at h0
      exact hne h0
  · rintro ⟨fd, c, hc, _, heq⟩
    have h0 := h2 fd c hc (by rw [heq]; exact hne)
    rw [heq] at h0
    exact h0

/-- Witness for C2 (amended): the equality instantiated at the initial
reactor state and the concrete name `Bob`. -/
theorem c2_taken_names_invariant_witness :
    ascii "Bob" ∈ initReactor.names ↔
      ∃ fd c, initReactor.conns fd = some c ∧
        statusPastNameBytes c.handler.status ∧ c.svcName = ascii "Bob" :=
  c2_taken_names_invariant initReactor RReach.init (ascii "Bob") (by decide)

end Chatroom
